import Mathlib

/-!
SimpleFuzz: the per-sample fuzz transform of `SimpleFuzzAudioProcessor::processBlock`

Shallow embedding of `Source/PluginProcessor.cpp`, lines 166-189 (the parameter reads
and the DSP loops), and of the parameter ranges of lines 35-37.

Modelling conventions.
* Samples and parameters are C++ `float`s. The loops are modelled over a linearly
  ordered field with exact arithmetic, so they run on `ℚ`; that model stands for the
  float code where no operation overflows, up to the rounding of each value. Theorems
  on it that assert a value are stated where nothing overflows: parameters of the
  declared ranges and samples of bounded magnitude.
* What turns on a rounded value or on an overflow is stated on a second model of the
  loop body, `processSampleF32`, in IEEE-754 arithmetic on rationals, infinities and NaN.
* `juce::dsp::AudioBlock<float>` is a rectangular view: `getNumChannels()` channels of
  `getNumSamples()` samples each. It is modelled by `AudioBlock`, the rectangular shape
  by `AudioBlock.WellFormed`.
* `juce::Decibels::decibelsToGain` is a template of the JUCE library, which is not
  part of this repository. The generic loops take the conversion as a parameter;
  `Decibels.decibelsToGain` is the library's definition over `ℝ`, where the real power
  is available. The float loop body takes the value it returns as a parameter.
* The loop of lines 156-157, which clears output channels without input, is outside
  the modelled range; it runs zero times when the input and output channel counts
  agree, which `isBusesLayoutSupported` (lines 135-136) requires.
-/

namespace SimpleFuzz

/-! ## Data model -/

/-- A block of audio: `numSamples` is `getNumSamples()`, `channels` holds the data
reachable through `getChannelPointer`. -/
structure AudioBlock (α : Type) where
  numSamples : Nat
  channels : List (List α)
deriving DecidableEq, Repr

/-- Number of channels, `block.getNumChannels()`. -/
def AudioBlock.getNumChannels {α : Type} (block : AudioBlock α) : Nat :=
  block.channels.length

/-- Number of samples per channel, `block.getNumSamples()`. -/
def AudioBlock.getNumSamples {α : Type} (block : AudioBlock α) : Nat :=
  block.numSamples

/-- The shape invariant of a JUCE buffer: every channel holds exactly
`getNumSamples()` samples. -/
def AudioBlock.WellFormed {α : Type} (block : AudioBlock α) : Prop :=
  ∀ channelData ∈ block.channels, channelData.length = block.numSamples

/-- The `float` literal `0.1f` of line 37, the float nearest to 0.1:
`13421773 / 2 ^ 27`, a little above one tenth. -/
def volumeMax {α : Type} [LinearOrderedField α] : α := 13421773 / 134217728

/-- The declared parameter ranges of `createParameterLayout` (lines 35-37):
gain in [`0.0f`, `1.0f`], mix in [`0.0f`, `1.0f`], volume in [`0.0f`, `0.1f`]. -/
def InDeclaredRanges {α : Type} [LinearOrderedField α] (gainParam mix volume : α) : Prop :=
  (0 ≤ gainParam ∧ gainParam ≤ 1) ∧ (0 ≤ mix ∧ mix ≤ 1) ∧ (0 ≤ volume ∧ volume ≤ volumeMax)

/-! ## The transform (generic in the field and in the decibel conversion) -/

section Generic

variable {α : Type} [LinearOrderedField α]

/-- Lines 182-184: `if (wetSignal > 0.99) wetSignal *= 0.99 / std::abs(wetSignal);`. -/
def clipStage (wetSignal : α) : α :=
  if wetSignal > 0.99 then wetSignal * (0.99 / |wetSignal|) else wetSignal

/-- Lines 181-184: the wet signal after the drive and the clip stage. -/
def wetSignalOf (decibelsToGain : α → α) (gain drySample : α) : α :=
  clipStage (drySample * decibelsToGain gain)

/-- Lines 180-187 as a function of the sample read at line 180: the value that
the sample position holds at the end of the loop body. `gain` is the local of
line 166, already multiplied by 60. -/
def processSample (decibelsToGain : α → α) (gain mix volume drySample : α) : α :=
  let wetSignal := drySample * decibelsToGain gain
  let wetSignal := if wetSignal > 0.99 then wetSignal * (0.99 / |wetSignal|) else wetSignal
  let stored := (drySample * (1 - mix)) + (wetSignal * mix)
  stored * volume

/-- One iteration of the inner loop (lines 180-187) on the channel data, at index
`sample`: read, drive, clip, store the blend, then scale the stored value in place. -/
def sampleStep (decibelsToGain : α → α) (gain mix volume : α)
    (channelData : List α) (sample : Nat) : List α :=
  match channelData[sample]? with
  | none => channelData
  | some drySample =>
    let wetSignal := drySample * decibelsToGain gain
    let wetSignal := if wetSignal > 0.99 then wetSignal * (0.99 / |wetSignal|) else wetSignal
    let channelData := channelData.set sample ((drySample * (1 - mix)) + (wetSignal * mix))
    match channelData[sample]? with
    | none => channelData
    | some stored => channelData.set sample (stored * volume)

/-- The inner loop, line 178: `for (sample = 0; sample < numSamples; ++sample)`. -/
def sampleLoop (decibelsToGain : α → α) (gain mix volume : α)
    (numSamples : Nat) (channelData : List α) : List α :=
  (List.range numSamples).foldl (sampleStep decibelsToGain gain mix volume) channelData

/-- One iteration of the outer loop (lines 176-188): fetch the channel and run the
inner loop on it in place. -/
def channelStep (decibelsToGain : α → α) (gain mix volume : α) (numSamples : Nat)
    (channels : List (List α)) (channel : Nat) : List (List α) :=
  match channels[channel]? with
  | none => channels
  | some channelData =>
    channels.set channel (sampleLoop decibelsToGain gain mix volume numSamples channelData)

/-- Lines 166-189 of `processBlock`, with the decibel conversion as a parameter.
`gainParam`, `mix`, `volume` are the raw parameter values read at lines 166-168. -/
def processBlockWith (decibelsToGain : α → α) (gainParam mix volume : α)
    (block : AudioBlock α) : AudioBlock α :=
  let gain := gainParam * 60
  { block with
    channels :=
      (List.range block.getNumChannels).foldl
        (channelStep decibelsToGain gain mix volume block.getNumSamples) block.channels }

/-- A division that fails on a zero divisor. -/
def checkedDiv (a b : α) : Option α :=
  if b = 0 then none else some (a / b)

/-- The loop body of lines 180-187 with the division of line 183 checked:
`none` is the error path of a division by zero. -/
def processSampleChecked (decibelsToGain : α → α) (gain mix volume drySample : α) :
    Option α :=
  let wetSignal := drySample * decibelsToGain gain
  let clipped : Option α :=
    if wetSignal > 0.99 then (checkedDiv 0.99 |wetSignal|).map (fun q => wetSignal * q)
    else some wetSignal
  clipped.map (fun wetSignal => ((drySample * (1 - mix)) + (wetSignal * mix)) * volume)

end Generic

/-! ## The decibel conversion and the processor over the reals -/

/-- The constant `juce::Decibels::defaultMinusInfinitydB` of the JUCE library:
`enum { defaultMinusInfinitydB = -100 };`. -/
def Decibels.defaultMinusInfinitydB : ℝ := -100

/-- The library function `juce::Decibels::decibelsToGain` (JUCE,
`juce_audio_basics/utilities/juce_Decibels.h`), called at line 181 with one argument,
so with the default floor `minusInfinityDb = defaultMinusInfinitydB`:
`return decibels > minusInfinityDb ? std::pow (Type (10.0), decibels * Type (0.05)) : Type();`.
Above the floor this is `10^(decibels / 20)`; at or below it the gain is 0. -/
noncomputable def Decibels.decibelsToGain (decibels : ℝ) : ℝ :=
  if decibels > Decibels.defaultMinusInfinitydB then (10 : ℝ) ^ (decibels * 0.05) else 0

/-- The DSP part of `SimpleFuzzAudioProcessor::processBlock`, lines 166-189. -/
noncomputable def processBlock (gainParam mix volume : ℝ) (block : AudioBlock ℝ) :
    AudioBlock ℝ :=
  processBlockWith Decibels.decibelsToGain gainParam mix volume block

/-! ## The formula of the specification -/

/-- The clip of the specification: `w * (0.99 / |w|)` if `w > 0.99`, else `w`. -/
noncomputable def specClip (w : ℝ) : ℝ :=
  if w > 0.99 then w * (0.99 / |w|) else w

/-- The per-sample formula of the specification, with `driveLinear = 10^((gain * 60) / 20)`. -/
noncomputable def specSample (gain mix volume s : ℝ) : ℝ :=
  ((s * (1 - mix)) + (specClip (s * (10 : ℝ) ^ ((gain * 60) / 20)) * mix)) * volume

/-! ## The loop body in IEEE-754 arithmetic

The exact model above cannot tell `0.99` from the `float` next to it, nor a finite
value from an overflow. The definitions below give lines 180-187 with the arithmetic of
the C++ abstract machine on IEEE-754 `float` and `double`: every operation rounds to
nearest, ties to even, overflows to an infinity, and propagates NaN. The two zeros are
identified. Contraction of a product and a sum into one fused operation and the
flushing of subnormal numbers to zero, which a compiler or line 146 may enable, are not
modelled. -/

/-- A binary floating-point format: the precision in bits and the least and greatest
exponent of a normal number. -/
structure Format where
  prec : Nat
  emin : Int
  emax : Int
deriving DecidableEq, Repr

/-- The format of `float`. -/
def binary32 : Format := ⟨24, -126, 127⟩

/-- The format of `double`. -/
def binary64 : Format := ⟨53, -1022, 1023⟩

/-- The largest finite number of a format. -/
def Format.maxFinite (f : Format) : ℚ :=
  (2 - 2 ^ (1 - (f.prec : Int))) * 2 ^ f.emax

/-- Rounding to the nearest integer, ties to the even one. -/
def roundHalfEven (x : ℚ) : Int :=
  if x - ⌊x⌋ < 1 / 2 then ⌊x⌋
  else if x - ⌊x⌋ > 1 / 2 then ⌊x⌋ + 1
  else if ⌊x⌋ % 2 = 0 then ⌊x⌋ else ⌊x⌋ + 1

/-- The spacing of the numbers of the format around `x`. -/
def Format.quantum (f : Format) (x : ℚ) : ℚ :=
  2 ^ (max (Int.log 2 |x|) f.emin - ((f.prec : Int) - 1))

/-- Rounding to the nearest number of the format with unbounded exponent above. -/
def Format.roundFinite (f : Format) (x : ℚ) : ℚ :=
  roundHalfEven (x / f.quantum x) * f.quantum x

/-- A floating-point datum; the two zeros are identified. -/
inductive Fp where
  | nan : Fp
  | inf (negative : Bool) : Fp
  | fin (value : ℚ) : Fp
deriving DecidableEq, Repr

/-- Rounding of a rational result, round to nearest, ties to even, with overflow. -/
def Format.round (f : Format) (x : ℚ) : Fp :=
  if f.roundFinite x > f.maxFinite then Fp.inf false
  else if f.roundFinite x < -f.maxFinite then Fp.inf true
  else Fp.fin (f.roundFinite x)

/-- Multiplication in a format. -/
def Fp.mul (f : Format) (a b : Fp) : Fp :=
  match a, b with
  | Fp.nan, _ => Fp.nan
  | _, Fp.nan => Fp.nan
  | Fp.inf s, Fp.inf t => Fp.inf (xor s t)
  | Fp.inf s, Fp.fin y => if y = 0 then Fp.nan else Fp.inf (xor s (decide (y < 0)))
  | Fp.fin x, Fp.inf t => if x = 0 then Fp.nan else Fp.inf (xor (decide (x < 0)) t)
  | Fp.fin x, Fp.fin y => f.round (x * y)

/-- Division in a format. -/
def Fp.div (f : Format) (a b : Fp) : Fp :=
  match a, b with
  | Fp.nan, _ => Fp.nan
  | _, Fp.nan => Fp.nan
  | Fp.inf _, Fp.inf _ => Fp.nan
  | Fp.inf s, Fp.fin y => Fp.inf (xor s (decide (y < 0)))
  | Fp.fin _, Fp.inf _ => Fp.fin 0
  | Fp.fin x, Fp.fin y =>
    if y = 0 then (if x = 0 then Fp.nan else Fp.inf (decide (x < 0))) else f.round (x / y)

/-- Addition in a format. -/
def Fp.add (f : Format) (a b : Fp) : Fp :=
  match a, b with
  | Fp.nan, _ => Fp.nan
  | _, Fp.nan => Fp.nan
  | Fp.inf s, Fp.inf t => if s = t then Fp.inf s else Fp.nan
  | Fp.inf s, Fp.fin _ => Fp.inf s
  | Fp.fin _, Fp.inf t => Fp.inf t
  | Fp.fin x, Fp.fin y => f.round (x + y)

/-- Negation. -/
def Fp.neg (a : Fp) : Fp :=
  match a with
  | Fp.nan => Fp.nan
  | Fp.inf s => Fp.inf (!s)
  | Fp.fin x => Fp.fin (-x)

/-- Subtraction in a format. -/
def Fp.sub (f : Format) (a b : Fp) : Fp :=
  Fp.add f a (Fp.neg b)

/-- Absolute value, `std::abs`. -/
def Fp.abs (a : Fp) : Fp :=
  match a with
  | Fp.nan => Fp.nan
  | Fp.inf _ => Fp.inf false
  | Fp.fin x => Fp.fin |x|

/-- The comparison `a > b`; false when an operand is NaN. -/
def Fp.gt (a b : Fp) : Bool :=
  match a, b with
  | Fp.nan, _ => false
  | _, Fp.nan => false
  | Fp.inf s, Fp.inf t => !s && t
  | Fp.inf s, Fp.fin _ => !s
  | Fp.fin _, Fp.inf t => t
  | Fp.fin x, Fp.fin y => decide (x > y)

/-- Conversion to a format. -/
def Fp.convert (f : Format) (a : Fp) : Fp :=
  match a with
  | Fp.fin x => f.round x
  | Fp.nan => Fp.nan
  | Fp.inf s => Fp.inf s

/-- The literal `0.99`, a `double`. -/
def double099 : ℚ := binary64.roundFinite (99 / 100)

/-- Lines 182-184 on floats: the comparison, the division and the product are carried
out in `double` (the literal `0.99` is a `double`), the result is converted back to
`float` by the compound assignment. -/
def clipStageF32 (wetSignal : Fp) : Fp :=
  if Fp.gt wetSignal (Fp.fin double099) then
    Fp.convert binary32
      (Fp.mul binary64 wetSignal (Fp.div binary64 (Fp.fin double099) (Fp.abs wetSignal)))
  else wetSignal

/-- Lines 181-184 on floats: the wet signal after the drive and the clip stage. -/
def wetSignalF32 (driveLinear drySample : Fp) : Fp :=
  clipStageF32 (Fp.mul binary32 drySample driveLinear)

/-- The float nearest to 0.99. -/
def float099 : ℚ := binary32.roundFinite (99 / 100)

/-- Lines 180-187 on floats, as a function of the sample read at line 180 and of the
value `driveLinear` that `decibelsToGain (gain)` returns: every operation of lines 181,
186 and 187 is a `float` operation. -/
def processSampleF32 (driveLinear mix volume drySample : Fp) : Fp :=
  let wetSignal := Fp.mul binary32 drySample driveLinear
  let wetSignal := clipStageF32 wetSignal
  let stored :=
    Fp.add binary32 (Fp.mul binary32 drySample (Fp.sub binary32 (Fp.fin 1) mix))
      (Fp.mul binary32 wetSignal mix)
  Fp.mul binary32 stored volume

/-! ## Loop lemmas -/

section Lemmas

variable {α : Type} [LinearOrderedField α]

/-- The scalar function is the blend of the dry sample with the clipped wet signal,
scaled by the volume. -/
theorem processSample_eq_blend (decibelsToGain : α → α) (gain mix volume drySample : α) :
    processSample decibelsToGain gain mix volume drySample =
      ((drySample * (1 - mix)) + (wetSignalOf decibelsToGain gain drySample * mix)) * volume :=
  rfl

/-- The two stores of the loop body leave `processSample` of the sample that was read. -/
theorem sampleStep_eq_set (decibelsToGain : α → α) (gain mix volume : α)
    (channelData : List α) (sample : Nat) :
    sampleStep decibelsToGain gain mix volume channelData sample =
      match channelData[sample]? with
      | none => channelData
      | some drySample =>
        channelData.set sample (processSample decibelsToGain gain mix volume drySample) := by
  unfold sampleStep
  cases h : channelData[sample]? with
  | none => rfl
  | some drySample =>
    have hlt : sample < channelData.length := by
      by_contra hc
      rw [List.getElem?_eq_none (by omega)] at h
      cases h
    simp [processSample, List.getElem?_set, hlt]

/-- Rewriting the element that sits right after `front`. -/
theorem set_at_boundary {β : Type} (g : β → β) (front back : List β) (x : β) :
    (match (front ++ x :: back)[front.length]? with
      | none => front ++ x :: back
      | some y => (front ++ x :: back).set front.length (g y)) = front ++ g x :: back := by
  induction front with
  | nil => simp
  | cons a front ih =>
    simp only [List.cons_append, List.length_cons, List.getElem?_cons_succ] at ih ⊢
    cases h : (front ++ x :: back)[front.length]? with
    | none => simp at h
    | some y =>
      rw [h] at ih
      simp only [List.set_cons_succ] at ih ⊢
      rw [ih]

/-- A counted loop whose body rewrites position `i` by `g` has mapped `g` over the
first `n` positions after `n` iterations. -/
theorem foldl_range_set {β : Type} (step : List β → Nat → List β) (g : β → β)
    (hstep : ∀ l i, step l i = match l[i]? with
      | none => l
      | some x => l.set i (g x)) :
    ∀ (n : Nat) (l : List β), n ≤ l.length →
      (List.range n).foldl step l = (l.take n).map g ++ l.drop n := by
  intro n
  induction n with
  | zero => intro l _; simp
  | succ n ih =>
    intro l hn
    have hlt : n < l.length := by omega
    rw [List.range_succ, List.foldl_append, ih l (by omega)]
    simp only [List.foldl_cons, List.foldl_nil]
    rw [hstep]
    have hdrop : l.drop n = l[n] :: l.drop (n + 1) := List.drop_eq_getElem_cons hlt
    have htake : l.take (n + 1) = l.take n ++ [l[n]] := by
      rw [List.take_succ, List.getElem?_eq_getElem hlt]; rfl
    have hlen : ((l.take n).map g).length = n := by simp; omega
    rw [hdrop, htake]
    have hset := set_at_boundary g ((l.take n).map g) (l.drop (n + 1)) l[n]
    rw [hlen] at hset
    rw [hset, List.map_append, List.append_assoc]
    rfl

/-- The counted loop run over the whole list is a map. -/
theorem foldl_range_set_all {β : Type} (step : List β → Nat → List β) (g : β → β)
    (hstep : ∀ l i, step l i = match l[i]? with
      | none => l
      | some x => l.set i (g x)) (l : List β) :
    (List.range l.length).foldl step l = l.map g := by
  rw [foldl_range_set step g hstep l.length l (le_refl _)]
  simp

/-- The inner loop over a channel of exactly `numSamples` samples maps the scalar
function over it. -/
theorem sampleLoop_eq_map (decibelsToGain : α → α) (gain mix volume : α)
    (numSamples : Nat) (channelData : List α) (hlen : channelData.length = numSamples) :
    sampleLoop decibelsToGain gain mix volume numSamples channelData =
      channelData.map (processSample decibelsToGain gain mix volume) := by
  subst hlen
  exact foldl_range_set_all _ _ (sampleStep_eq_set decibelsToGain gain mix volume) channelData

/-- The outer loop runs the inner loop on every channel. -/
theorem processBlockWith_channels (decibelsToGain : α → α) (gainParam mix volume : α)
    (block : AudioBlock α) :
    (processBlockWith decibelsToGain gainParam mix volume block).channels =
      block.channels.map
        (sampleLoop decibelsToGain (gainParam * 60) mix volume block.numSamples) := by
  unfold processBlockWith AudioBlock.getNumChannels AudioBlock.getNumSamples
  exact foldl_range_set_all
    (channelStep decibelsToGain (gainParam * 60) mix volume block.numSamples)
    (sampleLoop decibelsToGain (gainParam * 60) mix volume block.numSamples)
    (fun l i => by unfold channelStep; cases l[i]? <;> rfl) block.channels

/-- On a rectangular block the two loops map the scalar function over every sample. -/
theorem processBlockWith_eq_map (decibelsToGain : α → α) (gainParam mix volume : α)
    (block : AudioBlock α) (hwf : block.WellFormed) :
    (processBlockWith decibelsToGain gainParam mix volume block).channels =
      block.channels.map (List.map (processSample decibelsToGain (gainParam * 60) mix volume)) := by
  rw [processBlockWith_channels]
  apply List.map_congr_left
  intro channelData hmem
  exact sampleLoop_eq_map _ _ _ _ _ _ (hwf channelData hmem)

/-- On a rectangular block the result is the block of the mapped channels. -/
theorem processBlockWith_eq_mk {α : Type} [LinearOrderedField α]
    (decibelsToGain : α → α) (gainParam mix volume : α)
    (block : AudioBlock α) (hwf : block.WellFormed) :
    processBlockWith decibelsToGain gainParam mix volume block =
      ⟨block.numSamples,
        block.channels.map
          (List.map (processSample decibelsToGain (gainParam * 60) mix volume))⟩ := by
  have hmap := processBlockWith_eq_map decibelsToGain gainParam mix volume block hwf
  obtain ⟨n, chs⟩ := block
  show AudioBlock.mk n _ = AudioBlock.mk n _
  congr 1

/-- The clip stage keeps a value that is at most 0.99. -/
theorem clipStage_of_le (wetSignal : α) (h : wetSignal ≤ 0.99) :
    clipStage wetSignal = wetSignal := by
  unfold clipStage
  rw [if_neg (not_lt.mpr h)]

end Lemmas

/-! ## The decibel conversion -/

section DecibelLemmas

/-- Above the floor the conversion is `10^(decibels / 20)`. -/
theorem decibelsToGain_of_gt (decibels : ℝ) (h : decibels > -100) :
    Decibels.decibelsToGain decibels = (10 : ℝ) ^ (decibels / 20) := by
  unfold Decibels.decibelsToGain Decibels.defaultMinusInfinitydB
  rw [if_pos h]
  congr 1
  ring

/-- At or below the floor the conversion returns 0. -/
theorem decibelsToGain_of_le (decibels : ℝ) (h : decibels ≤ -100) :
    Decibels.decibelsToGain decibels = 0 := by
  unfold Decibels.decibelsToGain Decibels.defaultMinusInfinitydB
  rw [if_neg (not_lt.mpr h)]

/-- Over the declared gain range the drive factor lies between 1 and 1000. -/
theorem decibelsToGain_range (gain : ℝ) (h0 : 0 ≤ gain) (h1 : gain ≤ 1) :
    1 ≤ Decibels.decibelsToGain (gain * 60) ∧ Decibels.decibelsToGain (gain * 60) ≤ 1000 := by
  have hgt : gain * 60 > -100 := by linarith
  rw [decibelsToGain_of_gt _ hgt]
  constructor
  · exact Real.one_le_rpow (by norm_num) (by positivity)
  · have h3 : (10 : ℝ) ^ ((3 : ℕ) : ℝ) = 1000 := by rw [Real.rpow_natCast]; norm_num
    rw [← h3]
    apply Real.rpow_le_rpow_of_exponent_le (by norm_num)
    push_cast
    linarith

/-- Above the floor of the conversion the loop body computes the formula of the
specification. -/
theorem processSample_eq_specSample (gain mix volume s : ℝ) (h : gain * 60 > -100) :
    processSample Decibels.decibelsToGain (gain * 60) mix volume s =
      specSample gain mix volume s := by
  unfold processSample specSample specClip
  rw [decibelsToGain_of_gt _ h]

/-- At or below the floor the drive factor is zero and only the dry part remains. -/
theorem processSample_below_floor (gain mix volume s : ℝ) (h : gain * 60 ≤ -100) :
    processSample Decibels.decibelsToGain (gain * 60) mix volume s =
      (s * (1 - mix)) * volume := by
  unfold processSample
  rw [decibelsToGain_of_le _ h]
  norm_num

/-- The square of `10^1.5` is 1000. -/
theorem ten_rpow_three_halves_sq : ((10 : ℝ) ^ (1.5 : ℝ)) ^ 2 = 1000 := by
  rw [← Real.rpow_natCast, ← Real.rpow_mul (by norm_num)]
  have h : (1.5 : ℝ) * ((2 : ℕ) : ℝ) = ((3 : ℕ) : ℝ) := by norm_num
  rw [h, Real.rpow_natCast]
  norm_num

end DecibelLemmas

/-! ## Rounding lemmas -/

section RoundingLemmas

/-- Rounding to an integer moves a number by at most one half. -/
theorem roundHalfEven_error (x : ℚ) : |(roundHalfEven x : ℚ) - x| ≤ 1 / 2 := by
  have h0 : 0 ≤ x - ⌊x⌋ := sub_nonneg.mpr (Int.floor_le x)
  have h1 : x - ⌊x⌋ < 1 := by linarith [Int.lt_floor_add_one x]
  unfold roundHalfEven
  rw [abs_le]
  split_ifs with ha hb hc
  · constructor <;> linarith
  · push_cast; constructor <;> linarith
  · constructor <;> linarith
  · push_cast; constructor <;> linarith

/-- A number closer than one half to an integer rounds to it. -/
theorem roundHalfEven_eq_of_near (x : ℚ) (k : Int) (h : |x - k| < 1 / 2) :
    roundHalfEven x = k := by
  have herr := roundHalfEven_error x
  rw [abs_lt] at h
  rw [abs_le] at herr
  have hlt : |((roundHalfEven x - k : Int) : ℚ)| < 1 := by
    rw [abs_lt]; push_cast; constructor <;> linarith
  have hint : |roundHalfEven x - k| < 1 := by exact_mod_cast hlt
  have := Int.abs_lt_one_iff.mp hint
  omega

/-- The binary exponent of a number of a known binade. -/
theorem log_two_eq_of_bounds (x : ℚ) (e : Int) (hlo : (2 : ℚ) ^ e ≤ x)
    (hhi : x < (2 : ℚ) ^ (e + 1)) : Int.log 2 x = e := by
  have hpos : 0 < x := lt_of_lt_of_le (by positivity) hlo
  have h1 : e ≤ Int.log 2 x := by
    rw [← Int.zpow_le_iff_le_log (by norm_num) hpos]
    exact_mod_cast hlo
  have h2 : Int.log 2 x < e + 1 := by
    rw [← Int.lt_zpow_iff_log_lt (by norm_num) hpos]
    exact_mod_cast hhi
  omega

/-- The spacing of a format in a known binade of its normal range. -/
theorem quantum_of_bounds (f : Format) (x : ℚ) (e : Int) (hlo : (2 : ℚ) ^ e ≤ x)
    (hhi : x < (2 : ℚ) ^ (e + 1)) (hemin : f.emin ≤ e) :
    f.quantum x = 2 ^ (e - ((f.prec : Int) - 1)) := by
  have hpos : 0 < x := lt_of_lt_of_le (by positivity) hlo
  unfold Format.quantum
  rw [abs_of_pos hpos, log_two_eq_of_bounds x e hlo hhi, max_eq_left hemin]

/-- A number closer than half a spacing to a number of the format rounds to it. -/
theorem roundFinite_eq_of_near (f : Format) (x : ℚ) (e k : Int) (hlo : (2 : ℚ) ^ e ≤ x)
    (hhi : x < (2 : ℚ) ^ (e + 1)) (hemin : f.emin ≤ e)
    (hk : |x / 2 ^ (e - ((f.prec : Int) - 1)) - k| < 1 / 2) :
    f.roundFinite x = k * 2 ^ (e - ((f.prec : Int) - 1)) := by
  unfold Format.roundFinite
  rw [quantum_of_bounds f x e hlo hhi hemin, roundHalfEven_eq_of_near _ k hk]

/-- Relative error of rounding a positive number in the normal range. -/
theorem roundFinite_rel_error (f : Format) (x : ℚ) (hmin : (2 : ℚ) ^ f.emin ≤ x) :
    |f.roundFinite x - x| ≤ x * 2 ^ (-(f.prec : Int)) := by
  have hpos : 0 < x := lt_of_lt_of_le (by positivity) hmin
  have habs : |x| = x := abs_of_pos hpos
  have hlog : f.emin ≤ Int.log 2 x := by
    rw [← Int.zpow_le_iff_le_log (by norm_num) hpos]
    exact_mod_cast hmin
  have hle : (2 : ℚ) ^ Int.log 2 x ≤ x := by
    have hnat : ((2 : ℕ) : ℚ) ^ Int.log 2 x ≤ x := Int.zpow_log_le_self (by norm_num) hpos
    exact_mod_cast hnat
  have hq : f.quantum x = 2 ^ (Int.log 2 x - ((f.prec : Int) - 1)) := by
    unfold Format.quantum
    rw [habs, max_eq_left hlog]
  have hqpos : 0 < f.quantum x := by rw [hq]; positivity
  have herr := roundHalfEven_error (x / f.quantum x)
  have hkey : f.roundFinite x - x = ((roundHalfEven (x / f.quantum x) : ℚ) - x / f.quantum x) *
      f.quantum x := by
    unfold Format.roundFinite
    field_simp
  rw [hkey, abs_mul, abs_of_pos hqpos]
  have hhalf : f.quantum x * (1 / 2) = 2 ^ Int.log 2 x * 2 ^ (-(f.prec : Int)) := by
    rw [hq, ← zpow_add₀ (by norm_num : (2 : ℚ) ≠ 0)]
    have : Int.log 2 x - ((f.prec : Int) - 1) = (Int.log 2 x + -(f.prec : Int)) + 1 := by ring
    rw [this, zpow_add_one₀ (by norm_num : (2 : ℚ) ≠ 0)]
    ring
  calc |(roundHalfEven (x / f.quantum x) : ℚ) - x / f.quantum x| * f.quantum x
      ≤ (1 / 2) * f.quantum x := mul_le_mul_of_nonneg_right herr (le_of_lt hqpos)
    _ = 2 ^ Int.log 2 x * 2 ^ (-(f.prec : Int)) := by rw [mul_comm, hhalf]
    _ ≤ x * 2 ^ (-(f.prec : Int)) := mul_le_mul_of_nonneg_right hle (by positivity)

/-- The value of the `double` literal `0.99`. -/
theorem double099_eq : double099 = 4458563631096791 / 4503599627370496 := by
  unfold double099
  rw [roundFinite_eq_of_near binary64 (99 / 100) (-1) 8917127262193582
    (by norm_num) (by norm_num) (by decide) (by norm_num [binary64, abs_lt])]
  norm_num [binary64]

/-- A double within `2 ^ (-26)` of 0.99 converts to the float `4152361 / 4194304`. -/
theorem roundFinite32_near_099 (x : ℚ) (hlo : 4152361 / 4194304 - 1 / 2 ^ 26 ≤ x)
    (hhi : x ≤ 4152361 / 4194304 + 1 / 2 ^ 26) :
    binary32.roundFinite x = 4152361 / 4194304 := by
  rw [roundFinite_eq_of_near binary32 x (-1) 16609444 (by norm_num at hlo ⊢; linarith)
    (by norm_num at hhi ⊢; linarith) (by decide) ?_]
  · norm_num [binary32]
  · rw [abs_lt]
    norm_num [binary32] at hlo hhi ⊢
    constructor <;> linarith

/-- A rounding that stays within the finite range does not overflow. -/
theorem round_eq_fin (f : Format) (x : ℚ) (hhi : f.roundFinite x ≤ f.maxFinite)
    (hlo : -f.maxFinite ≤ f.roundFinite x) : f.round x = Fp.fin (f.roundFinite x) := by
  unfold Format.round
  rw [if_neg (not_lt.mpr hhi), if_neg (not_lt.mpr hlo)]

/-- The clip branch on a finite float above the threshold stores the float nearest
to 0.99. -/
theorem clipStageF32_of_gt (w : ℚ) (hgt : double099 < w) (hmax : w ≤ binary32.maxFinite) :
    clipStageF32 (Fp.fin w) = Fp.fin (4152361 / 4194304) := by
  have hM : binary32.maxFinite = 340282346638528859811704183484516925440 := by
    norm_num [Format.maxFinite, binary32]
  have hM64 : (2 : ℚ) ≤ binary64.maxFinite := by
    norm_num [Format.maxFinite, binary64]
  have hmin : (2 : ℚ) ^ binary64.emin ≤ 2 ^ (-129 : Int) := by
    norm_num [binary64]
  have hu : (2 : ℚ) ^ (-(binary64.prec : Int)) = 1 / 9007199254740992 := by
    norm_num [binary64]
  rw [double099_eq] at hgt
  rw [hM] at hmax
  have hwpos : 0 < w := lt_trans (by norm_num) hgt
  -- the quotient `0.99 / |wetSignal|`
  have hx1lo : (2 : ℚ) ^ (-129 : Int) ≤ 4458563631096791 / 4503599627370496 / w := by
    rw [le_div_iff₀ hwpos]
    norm_num
    linarith
  have hx1hi : 4458563631096791 / 4503599627370496 / w < 1 := by
    rw [div_lt_one hwpos]; exact hgt
  have hx1pos : 0 < 4458563631096791 / 4503599627370496 / w := by positivity
  have he1 := roundFinite_rel_error binary64 _ (le_trans hmin hx1lo)
  rw [hu, abs_le] at he1
  have hr1 : binary64.round (4458563631096791 / 4503599627370496 / w) =
      Fp.fin (binary64.roundFinite (4458563631096791 / 4503599627370496 / w)) :=
    round_eq_fin _ _ (by linarith) (by linarith)
  -- the product `wetSignal * (0.99 / |wetSignal|)`
  have hwx : w * (4458563631096791 / 4503599627370496 / w) =
      4458563631096791 / 4503599627370496 := by field_simp; ring
  have hx2lo : 4458563631096791 / 4503599627370496 * (1 - 1 / 9007199254740992) ≤
      w * binary64.roundFinite (4458563631096791 / 4503599627370496 / w) := by
    have := mul_le_mul_of_nonneg_left he1.1 (le_of_lt hwpos)
    nlinarith
  have hx2hi : w * binary64.roundFinite (4458563631096791 / 4503599627370496 / w) ≤
      4458563631096791 / 4503599627370496 * (1 + 1 / 9007199254740992) := by
    have := mul_le_mul_of_nonneg_left he1.2 (le_of_lt hwpos)
    nlinarith
  have he2 := roundFinite_rel_error binary64
    (w * binary64.roundFinite (4458563631096791 / 4503599627370496 / w))
    (le_trans hmin (le_trans (by norm_num) hx2lo))
  rw [hu, abs_le] at he2
  have hr2 : binary64.round
      (w * binary64.roundFinite (4458563631096791 / 4503599627370496 / w)) =
      Fp.fin (binary64.roundFinite
        (w * binary64.roundFinite (4458563631096791 / 4503599627370496 / w))) :=
    round_eq_fin _ _ (by linarith) (by linarith)
  -- the conversion to `float`
  have hr3 := roundFinite32_near_099
    (binary64.roundFinite (w * binary64.roundFinite (4458563631096791 / 4503599627370496 / w)))
    (by linarith) (by linarith)
  have hgtb : Fp.gt (Fp.fin w) (Fp.fin double099) = true := by
    rw [double099_eq]
    simp [Fp.gt, hgt]
  unfold clipStageF32
  rw [if_pos hgtb, double099_eq]
  simp only [Fp.abs, Fp.div, abs_of_pos hwpos, if_neg (ne_of_gt hwpos), hr1, Fp.mul, hr2,
    Fp.convert]
  rw [round_eq_fin _ _ (by rw [hr3, hM]; norm_num) (by rw [hr3, hM]; norm_num), hr3]

/-- The value of the float nearest to 0.99. -/
theorem float099_eq : float099 = 4152361 / 4194304 := by
  unfold float099
  exact roundFinite32_near_099 _ (by norm_num) (by norm_num)

/-- Zero rounds to zero. -/
theorem roundFinite_zero (f : Format) : f.roundFinite 0 = 0 := by
  unfold Format.roundFinite roundHalfEven
  simp

/-- The largest finite number is not negative. -/
theorem maxFinite_nonneg (f : Format) (h : 1 ≤ f.prec) : 0 ≤ f.maxFinite := by
  unfold Format.maxFinite
  have h1 : (2 : ℚ) ^ (1 - (f.prec : Int)) ≤ 2 ^ (0 : Int) :=
    zpow_le_zpow_right₀ (by norm_num) (by omega)
  have h2 : (0 : ℚ) < 2 ^ f.emax := by positivity
  have h3 : (0 : ℚ) ≤ 2 - 2 ^ (1 - (f.prec : Int)) := by
    rw [zpow_zero] at h1; linarith
  exact mul_nonneg h3 (le_of_lt h2)

/-- Zero is a `float`. -/
theorem round32_zero : binary32.round 0 = Fp.fin 0 := by
  have h := maxFinite_nonneg binary32 (by decide)
  rw [round_eq_fin _ _ (by rw [roundFinite_zero]; exact h)
    (by rw [roundFinite_zero]; linarith), roundFinite_zero]

/-- The float nearest to 0.99 is a `float`. -/
theorem round32_float099 : binary32.round float099 = Fp.fin float099 := by
  have h : binary32.roundFinite float099 = float099 := by
    rw [float099_eq]
    exact roundFinite32_near_099 _ (by norm_num) (by norm_num)
  rw [round_eq_fin _ _ (by rw [h, float099_eq]; norm_num [Format.maxFinite, binary32])
    (by rw [h, float099_eq]; norm_num [Format.maxFinite, binary32]), h]

/-- A finite result of a rounding lies within the finite range. -/
theorem round_fin_abs_le (f : Format) (x w : ℚ) (h : f.round x = Fp.fin w) :
    |w| ≤ f.maxFinite := by
  unfold Format.round at h
  split_ifs at h with h1 h2
  injection h with hw
  rw [← hw, abs_le]
  exact ⟨not_lt.mp h2, not_lt.mp h1⟩

/-- A finite product lies within the finite range. -/
theorem mul_fin_abs_le (f : Format) (a b : Fp) (w : ℚ) (h : Fp.mul f a b = Fp.fin w) :
    |w| ≤ f.maxFinite := by
  cases a with
  | nan => simp [Fp.mul] at h
  | inf s =>
    cases b with
    | nan => simp [Fp.mul] at h
    | inf t => simp [Fp.mul] at h
    | fin y =>
      simp only [Fp.mul] at h
      split_ifs at h
  | fin x =>
    cases b with
    | nan => simp [Fp.mul] at h
    | inf t =>
      simp only [Fp.mul] at h
      split_ifs at h
    | fin y => exact round_fin_abs_le f _ w h

/-- The clip stage turns plus infinity into NaN: `inf * (0.99 / inf) = inf * 0`. -/
theorem clipStageF32_inf : clipStageF32 (Fp.inf false) = Fp.nan := by
  simp [clipStageF32, Fp.gt, Fp.abs, Fp.div, Fp.mul, Fp.convert]

/-- The clip stage keeps a value that is not above the threshold. -/
theorem clipStageF32_of_not_gt (x : Fp) (h : Fp.gt x (Fp.fin double099) = false) :
    clipStageF32 x = x := by
  unfold clipStageF32
  rw [h]
  rfl

/-- After the clip stage the wet signal is NaN, minus infinity, or at most `float099`. -/
theorem wetSignalF32_bounded (driveLinear drySample : Fp) :
    wetSignalF32 driveLinear drySample = Fp.nan ∨
      wetSignalF32 driveLinear drySample = Fp.inf true ∨
      ∃ y : ℚ, wetSignalF32 driveLinear drySample = Fp.fin y ∧ y ≤ float099 := by
  unfold wetSignalF32
  cases hw : Fp.mul binary32 drySample driveLinear with
  | nan => left; exact clipStageF32_of_not_gt _ rfl
  | inf s =>
    cases s with
    | false => left; exact clipStageF32_inf
    | true => right; left; exact clipStageF32_of_not_gt _ rfl
  | fin w =>
    right; right
    by_cases hgt : double099 < w
    · exact ⟨float099, by
        rw [float099_eq]
        exact clipStageF32_of_gt w hgt (le_trans (le_abs_self w) (mul_fin_abs_le _ _ _ _ hw)),
        le_refl _⟩
    · refine ⟨w, clipStageF32_of_not_gt _ (by simp [Fp.gt, hgt]), ?_⟩
      rw [float099_eq]
      rw [double099_eq] at hgt
      linarith [not_lt.mp hgt]

/-- With `mix = 1` and a finite sample the stored blend is the wet signal `float099`. -/
theorem blend_mix_one (s : ℚ) (volume : Fp) :
    Fp.mul binary32
        (Fp.add binary32
          (Fp.mul binary32 (Fp.fin s) (Fp.sub binary32 (Fp.fin 1) (Fp.fin 1)))
          (Fp.mul binary32 (Fp.fin float099) (Fp.fin 1)))
        volume =
      Fp.mul binary32 (Fp.fin float099) volume := by
  have h1 : Fp.sub binary32 (Fp.fin 1) (Fp.fin 1) = Fp.fin 0 := by
    simp [Fp.sub, Fp.neg, Fp.add, round32_zero]
  have h2 : Fp.mul binary32 (Fp.fin s) (Fp.fin 0) = Fp.fin 0 := by
    simp [Fp.mul, round32_zero]
  have h3 : Fp.mul binary32 (Fp.fin float099) (Fp.fin 1) = Fp.fin float099 := by
    simp [Fp.mul, round32_float099]
  have h4 : Fp.add binary32 (Fp.fin 0) (Fp.fin float099) = Fp.fin float099 := by
    simp [Fp.add, round32_float099]
  rw [h1, h2, h3, h4]

/-- The float product `1.0 * 1.5` is 1.5. -/
theorem mul32_three_halves :
    Fp.mul binary32 (Fp.fin 1) (Fp.fin (3 / 2)) = Fp.fin (3 / 2) := by
  have h : binary32.roundFinite (3 / 2) = 3 / 2 := by
    rw [roundFinite_eq_of_near binary32 (3 / 2) 0 12582912 (by norm_num) (by norm_num)
      (by decide) (by norm_num [binary32])]
    norm_num [binary32]
  simp only [Fp.mul, one_mul]
  rw [round_eq_fin _ _ (by rw [h]; norm_num [Format.maxFinite, binary32])
    (by rw [h]; norm_num [Format.maxFinite, binary32]), h]

/-- The float product `2.0 * 1000` is 2000. -/
theorem mul32_two_thousand :
    Fp.mul binary32 (Fp.fin 2) (Fp.fin 1000) = Fp.fin 2000 := by
  have h : binary32.roundFinite 2000 = 2000 := by
    rw [roundFinite_eq_of_near binary32 2000 10 16384000 (by norm_num) (by norm_num)
      (by decide) (by norm_num [binary32])]
    norm_num [binary32]
  have hp : (2 : ℚ) * 1000 = 2000 := by norm_num
  simp only [Fp.mul, hp]
  rw [round_eq_fin _ _ (by rw [h]; norm_num [Format.maxFinite, binary32])
    (by rw [h]; norm_num [Format.maxFinite, binary32]), h]

/-- The float product `2^120 * 1000` overflows to plus infinity. -/
theorem mul32_overflow :
    Fp.mul binary32 (Fp.fin (2 ^ 120)) (Fp.fin 1000) = Fp.inf false := by
  have h : binary32.roundFinite (2 ^ 120 * 1000) = 2 ^ 120 * 1000 := by
    rw [roundFinite_eq_of_near binary32 (2 ^ 120 * 1000) 129 16384000 (by norm_num)
      (by norm_num) (by decide) (by norm_num [binary32])]
    norm_num [binary32]
  simp only [Fp.mul]
  unfold Format.round
  rw [h, if_pos (by norm_num [Format.maxFinite, binary32])]

end RoundingLemmas

/-! ## The claims -/

/-- C1 (amended): for every parameter triple inside the declared ranges (gain in [0, 1],
mix in [0, 1], volume in [0, `0.1f`]) and every rectangular audio block whose samples
have magnitude at most `10^35` (so that the driven sample stays below the largest
float), `processBlock` replaces each sample `s` of each channel by
`((s * (1 - mix)) + (clip(s * 10^((gain * 60) / 20)) * mix)) * volume`, the formula
`specSample`, in exact arithmetic. It does not hold for every gain value outside
[0, 1]. -/
theorem C1_processBlock_formula_in_range (gain mix volume : ℝ) (block : AudioBlock ℝ)
    (hr : InDeclaredRanges gain mix volume) (hwf : block.WellFormed)
    (_hs : ∀ channelData ∈ block.channels, ∀ s ∈ channelData, |s| ≤ 10 ^ 35) :
    processBlock gain mix volume block =
      ⟨block.numSamples, block.channels.map (List.map (specSample gain mix volume))⟩ := by
  have hfloor : gain * 60 > -100 := by linarith [hr.1.1]
  unfold processBlock
  rw [processBlockWith_eq_mk _ _ _ _ _ hwf]
  have hf : processSample Decibels.decibelsToGain (gain * 60) mix volume =
      specSample gain mix volume :=
    funext fun s => processSample_eq_specSample gain mix volume s hfloor
  rw [hf]

/-- Instance of C1 (amended) at `gain = 0.5`, `mix = 0.5`, `volume = 1/16` on a stereo
block. -/
theorem C1_processBlock_formula_in_range_witness :
    InDeclaredRanges (0.5 : ℝ) 0.5 (1 / 16) ∧
    (AudioBlock.WellFormed (⟨2, [[1, -2], [0.5, 3]]⟩ : AudioBlock ℝ)) ∧
    processBlock 0.5 0.5 (1 / 16) ⟨2, [[1, -2], [0.5, 3]]⟩ =
      ⟨2, [[specSample 0.5 0.5 (1 / 16) 1, specSample 0.5 0.5 (1 / 16) (-2)],
           [specSample 0.5 0.5 (1 / 16) 0.5, specSample 0.5 0.5 (1 / 16) 3]]⟩ :=
  ⟨by unfold InDeclaredRanges volumeMax; norm_num, by simp [AudioBlock.WellFormed],
   C1_processBlock_formula_in_range 0.5 0.5 (1 / 16) ⟨2, [[1, -2], [0.5, 3]]⟩
     (by unfold InDeclaredRanges volumeMax; norm_num) (by simp [AudioBlock.WellFormed])
     (by
       intro channelData hmem s hs
       simp only [List.mem_cons, List.mem_singleton, List.not_mem_nil, or_false] at hmem
       rcases hmem with rfl | rfl <;>
         · simp only [List.mem_cons, List.mem_singleton, List.not_mem_nil, or_false] at hs
           rcases hs with rfl | rfl <;> norm_num [abs_le])⟩

/-- C1 as stated fails for a gain outside [0, 1]: at `gain = -2` (drive -120 dB, below
the floor of the conversion), with `mix = 1` and `volume = 1/16` inside their ranges,
the sample 1.0 becomes 0, while the stated formula gives `10^(-6) / 16`. -/
theorem C1_counterexample_below_floor :
    processBlock (-2) 1 (1 / 16) ⟨1, [[1]]⟩ = ⟨1, [[0]]⟩ ∧
    specSample (-2) 1 (1 / 16) 1 = (10 : ℝ) ^ (-6 : ℝ) * (1 / 16) ∧
    processBlock (-2) 1 (1 / 16) ⟨1, [[1]]⟩ ≠ ⟨1, [[specSample (-2) 1 (1 / 16) 1]]⟩ := by
  have hwf : AudioBlock.WellFormed (⟨1, [[1]]⟩ : AudioBlock ℝ) := by simp [AudioBlock.WellFormed]
  have hcode : processBlock (-2) 1 (1 / 16) ⟨1, [[1]]⟩ = ⟨1, [[0]]⟩ := by
    unfold processBlock
    rw [processBlockWith_eq_mk _ _ _ _ _ hwf]
    have hs := processSample_below_floor (-2) 1 (1 / 16) 1 (by norm_num)
    simp only [List.map_cons, List.map_nil, hs]
    norm_num
  have hpos : (0 : ℝ) < (10 : ℝ) ^ (-6 : ℝ) := Real.rpow_pos_of_pos (by norm_num) _
  have hle : (10 : ℝ) ^ (-6 : ℝ) ≤ 0.99 := by
    have h1 : (10 : ℝ) ^ (-6 : ℝ) ≤ (10 : ℝ) ^ (-1 : ℝ) :=
      Real.rpow_le_rpow_of_exponent_le (by norm_num) (by norm_num)
    have h2 : (10 : ℝ) ^ (-1 : ℝ) = 10⁻¹ := Real.rpow_neg_one 10
    rw [h2] at h1
    exact le_trans h1 (by norm_num)
  have hspec : specSample (-2) 1 (1 / 16) 1 = (10 : ℝ) ^ (-6 : ℝ) * (1 / 16) := by
    unfold specSample specClip
    have he : ((-2 : ℝ) * 60) / 20 = -6 := by norm_num
    rw [he]
    simp only [one_mul]
    rw [if_neg (not_lt.mpr hle)]
    ring
  refine ⟨hcode, hspec, ?_⟩
  rw [hcode, hspec]
  intro heq
  injection heq with _ hch
  have h0 : (0 : ℝ) = (10 : ℝ) ^ (-6 : ℝ) * (1 / 16) := by
    injection hch with hrow _
    injection hrow
  have hprod : (0 : ℝ) < (10 : ℝ) ^ (-6 : ℝ) * (1 / 16) := mul_pos hpos (by norm_num)
  exact absurd h0 (ne_of_lt hprod)

/-- C2: with `gain = 0` and `mix = 0` every sample `s`, whether or not the clip branch
fires on it, is scaled by the volume only: the output is `s * volume`, for one sample
and for every rectangular block; `volume = 0.1`, `s = 0.5` give `0.05`. -/
theorem C2_zero_gain_zero_mix (volume s : ℝ) :
    processSample Decibels.decibelsToGain (0 * 60) 0 volume s = s * volume ∧
    processBlock 0 0 volume ⟨1, [[s]]⟩ = ⟨1, [[s * volume]]⟩ ∧
    (∀ block : AudioBlock ℝ, block.WellFormed →
      processBlock 0 0 volume block =
        ⟨block.numSamples, block.channels.map (List.map (fun x => x * volume))⟩) ∧
    processSample Decibels.decibelsToGain (0 * 60) 0 0.1 0.5 = 0.05 := by
  have hs : ∀ v x : ℝ, processSample Decibels.decibelsToGain (0 * 60) 0 v x = x * v := by
    intro v x
    rw [processSample_eq_blend]
    ring
  have hb : ∀ block : AudioBlock ℝ, block.WellFormed →
      processBlock 0 0 volume block =
        ⟨block.numSamples, block.channels.map (List.map (fun x => x * volume))⟩ := by
    intro block hwf
    unfold processBlock
    rw [processBlockWith_eq_mk _ _ _ _ _ hwf]
    have hf : processSample Decibels.decibelsToGain (0 * 60) 0 volume = fun x => x * volume :=
      funext (hs volume)
    rw [hf]
  refine ⟨hs volume s, ?_, hb, ?_⟩
  · exact hb ⟨1, [[s]]⟩ (by simp [AudioBlock.WellFormed])
  · rw [hs]; norm_num

/-- Instance of C2 on a stereo block that holds a sample above 0.99. -/
theorem C2_zero_gain_zero_mix_witness :
    (AudioBlock.WellFormed (⟨2, [[0.5, 2], [-1, 0]]⟩ : AudioBlock ℝ)) ∧
    processBlock 0 0 0.1 ⟨2, [[0.5, 2], [-1, 0]]⟩ =
      ⟨2, [[0.5 * 0.1, 2 * 0.1], [-1 * 0.1, 0 * 0.1]]⟩ :=
  ⟨by simp [AudioBlock.WellFormed],
   (C2_zero_gain_zero_mix 0.1 0).2.2.1 ⟨2, [[0.5, 2], [-1, 0]]⟩
     (by simp [AudioBlock.WellFormed])⟩

/-- C3 (amended): whenever the float product `wet = s * driveLinear` is a finite number
above the threshold of line 182 (the double nearest to 0.99, which lies below 0.99, so
in particular whenever `wet > 0.99`), the clip stage stores the float nearest to 0.99,
`float099 = 4152361 / 4194304`, a little above 0.99; the output is then
`(s * (1 - mix) + float099 * mix) * volume` in float arithmetic, and
`float099 * volume` when `mix = 1` and the sample is finite. Consequently the wet value
after the clip stage never exceeds `float099` when it is a number; when the product
has overflowed to plus infinity the clip stage stores NaN. -/
theorem C3_clip_stores_nearest_float (driveLinear mix volume drySample : Fp) :
    (∀ w : ℚ, Fp.mul binary32 drySample driveLinear = Fp.fin w → double099 < w →
      wetSignalF32 driveLinear drySample = Fp.fin float099 ∧
      processSampleF32 driveLinear mix volume drySample =
        Fp.mul binary32
          (Fp.add binary32
            (Fp.mul binary32 drySample (Fp.sub binary32 (Fp.fin 1) mix))
            (Fp.mul binary32 (Fp.fin float099) mix))
          volume ∧
      (∀ s : ℚ, drySample = Fp.fin s →
        processSampleF32 driveLinear (Fp.fin 1) volume drySample =
          Fp.mul binary32 (Fp.fin float099) volume)) ∧
    (wetSignalF32 driveLinear drySample = Fp.nan ∨
      wetSignalF32 driveLinear drySample = Fp.inf true ∨
      ∃ y : ℚ, wetSignalF32 driveLinear drySample = Fp.fin y ∧ y ≤ float099) ∧
    (Fp.mul binary32 drySample driveLinear = Fp.inf false →
      wetSignalF32 driveLinear drySample = Fp.nan) ∧
    (double099 < 99 / 100 ∧ (99 : ℚ) / 100 < float099 ∧ float099 = 4152361 / 4194304) := by
  refine ⟨?_, ?_, ?_, ?_⟩
  · intro w hw hgt
    have hwet : wetSignalF32 driveLinear drySample = Fp.fin float099 := by
      unfold wetSignalF32
      rw [hw, float099_eq]
      exact clipStageF32_of_gt w hgt (le_trans (le_abs_self w) (mul_fin_abs_le _ _ _ _ hw))
    have hbody : ∀ m : Fp, processSampleF32 driveLinear m volume drySample =
        Fp.mul binary32
          (Fp.add binary32
            (Fp.mul binary32 drySample (Fp.sub binary32 (Fp.fin 1) m))
            (Fp.mul binary32 (Fp.fin float099) m))
          volume := by
      intro m
      have hclip : clipStageF32 (Fp.mul binary32 drySample driveLinear) = Fp.fin float099 :=
        hwet
      unfold processSampleF32
      simp only [hclip]
    refine ⟨hwet, hbody mix, ?_⟩
    intro s hs
    rw [hbody, hs, blend_mix_one]
  · exact wetSignalF32_bounded driveLinear drySample
  · intro hinf
    unfold wetSignalF32
    rw [hinf]
    exact clipStageF32_inf
  · exact ⟨by rw [double099_eq]; norm_num, by rw [float099_eq]; norm_num, float099_eq⟩

/-- Instance of C3 (amended): `drySample = 2.0` and `driveLinear = 1000` give the finite
product 2000, above the threshold, and the wet signal `float099`. -/
theorem C3_clip_stores_nearest_float_witness :
    Fp.mul binary32 (Fp.fin 2) (Fp.fin 1000) = Fp.fin 2000 ∧ double099 < 2000 ∧
      wetSignalF32 (Fp.fin 1000) (Fp.fin 2) = Fp.fin float099 :=
  ⟨mul32_two_thousand, by rw [double099_eq]; norm_num,
   ((C3_clip_stores_nearest_float (Fp.fin 1000) (Fp.fin 1) (Fp.fin 1) (Fp.fin 2)).1 2000
      mul32_two_thousand (by rw [double099_eq]; norm_num)).1⟩

/-- C3 as stated fails on its own witness: for `drySample = 1.0`, `driveLinear = 1.5`
the product 1.5 exceeds 0.99 and the clip stage stores `4152361 / 4194304`, which is
not 0.99 and exceeds 0.99; and when the product overflows (`drySample = 2^120`,
`driveLinear = 1000`) the clip stage stores NaN. -/
theorem C3_counterexample_float_ceiling :
    Fp.mul binary32 (Fp.fin 1) (Fp.fin (3 / 2)) = Fp.fin (3 / 2) ∧
    wetSignalF32 (Fp.fin (3 / 2)) (Fp.fin 1) = Fp.fin (4152361 / 4194304) ∧
    (4152361 : ℚ) / 4194304 ≠ 99 / 100 ∧ (99 : ℚ) / 100 < 4152361 / 4194304 ∧
    wetSignalF32 (Fp.fin 1000) (Fp.fin (2 ^ 120)) = Fp.nan := by
  have hmul : Fp.mul binary32 (Fp.fin 1) (Fp.fin (3 / 2)) = Fp.fin (3 / 2) := mul32_three_halves
  refine ⟨hmul, ?_, by norm_num, by norm_num, ?_⟩
  · unfold wetSignalF32
    rw [hmul]
    exact clipStageF32_of_gt _ (by rw [double099_eq]; norm_num)
      (by norm_num [Format.maxFinite, binary32])
  · unfold wetSignalF32
    rw [mul32_overflow]
    exact clipStageF32_inf

/-- C5: the per-sample transform is independent across positions. On a rectangular
block the two loops of `processBlock` equal the map of one fixed scalar function
(`processSample` at the three parameters) over every channel, so the output at
(channel c, index i) is that function of the input at (c, i); the channel count, the
sample count and every channel's length are unchanged; processing a concatenation of
samples is the concatenation of the processed samples, and processing a permutation
of the samples is the same permutation of the processed samples. -/
theorem C5_processBlock_is_pointwise_map {α : Type} [LinearOrderedField α]
    (decibelsToGain : α → α) (gainParam mix volume : α) (block : AudioBlock α)
    (hwf : block.WellFormed) :
    (processBlockWith decibelsToGain gainParam mix volume block).channels =
        block.channels.map (List.map (processSample decibelsToGain (gainParam * 60) mix volume))
    ∧ (∀ c i : Nat,
        ((processBlockWith decibelsToGain gainParam mix volume block).channels[c]?.bind
            (fun channelData => channelData[i]?)) =
          (block.channels[c]?.bind (fun channelData => channelData[i]?)).map
            (processSample decibelsToGain (gainParam * 60) mix volume))
    ∧ (processBlockWith decibelsToGain gainParam mix volume block).getNumChannels =
        block.getNumChannels
    ∧ (processBlockWith decibelsToGain gainParam mix volume block).getNumSamples =
        block.getNumSamples
    ∧ (processBlockWith decibelsToGain gainParam mix volume block).channels.map List.length =
        block.channels.map List.length
    ∧ (∀ xs ys : List α,
        sampleLoop decibelsToGain (gainParam * 60) mix volume (xs ++ ys).length (xs ++ ys) =
          sampleLoop decibelsToGain (gainParam * 60) mix volume xs.length xs ++
            sampleLoop decibelsToGain (gainParam * 60) mix volume ys.length ys)
    ∧ (∀ (n : Nat) (samples : Fin n → α) (σ : Equiv.Perm (Fin n)) (i : Fin n),
        (sampleLoop decibelsToGain (gainParam * 60) mix volume n
            (List.ofFn (fun j => samples (σ j))))[i.val]? =
          (sampleLoop decibelsToGain (gainParam * 60) mix volume n
            (List.ofFn samples))[(σ i).val]?)
    ∧ (∀ xs ys : List α, xs.Perm ys →
        (sampleLoop decibelsToGain (gainParam * 60) mix volume xs.length xs).Perm
          (sampleLoop decibelsToGain (gainParam * 60) mix volume ys.length ys)) := by
  have hmap := processBlockWith_eq_map decibelsToGain gainParam mix volume block hwf
  refine ⟨hmap, ?_, ?_, rfl, ?_, ?_, ?_, ?_⟩
  · intro c i
    rw [hmap]
    cases h : block.channels[c]? with
    | none => simp [h]
    | some channelData => simp [h]
  · simp [AudioBlock.getNumChannels, hmap]
  · rw [hmap]; simp
  · intro xs ys
    rw [sampleLoop_eq_map _ _ _ _ _ _ rfl, sampleLoop_eq_map _ _ _ _ _ _ rfl,
      sampleLoop_eq_map _ _ _ _ _ _ rfl, List.map_append]
  · intro n samples σ i
    rw [sampleLoop_eq_map _ _ _ _ _ _ (List.length_ofFn _),
      sampleLoop_eq_map _ _ _ _ _ _ (List.length_ofFn _)]
    simp only [List.getElem?_map, List.getElem?_ofFn, List.ofFnNthVal, i.isLt, (σ i).isLt,
      dite_true, Fin.eta]
  · intro xs ys hperm
    rw [sampleLoop_eq_map _ _ _ _ _ _ rfl, sampleLoop_eq_map _ _ _ _ _ _ rfl]
    exact hperm.map _

/-- Instance of C5 on a stereo block of two samples per channel. -/
theorem C5_processBlock_is_pointwise_map_witness :
    (AudioBlock.WellFormed (⟨2, [[1, -2], [1 / 2, 3]]⟩ : AudioBlock ℚ)) ∧
    (processBlockWith (fun _ => (3 / 2 : ℚ)) 0 1 1 ⟨2, [[1, -2], [1 / 2, 3]]⟩).channels =
      (⟨2, [[1, -2], [1 / 2, 3]]⟩ : AudioBlock ℚ).channels.map
        (List.map (processSample (fun _ => (3 / 2 : ℚ)) (0 * 60) 1 1)) :=
  ⟨by simp [AudioBlock.WellFormed],
   (C5_processBlock_is_pointwise_map (fun _ => (3 / 2 : ℚ)) 0 1 1 ⟨2, [[1, -2], [1 / 2, 3]]⟩
      (by simp [AudioBlock.WellFormed])).1⟩

/-- C6: for every parameter triple, processing a block with zero channels, or a block
of zero samples per channel, returns the block unchanged; the model is a total
function, so there is no error outcome. -/
theorem C6_empty_block_unchanged {α : Type} [LinearOrderedField α]
    (decibelsToGain : α → α) (gainParam mix volume : α) (block : AudioBlock α)
    (hempty : block.getNumChannels = 0 ∨ block.getNumSamples = 0) :
    processBlockWith decibelsToGain gainParam mix volume block = block := by
  have hch := processBlockWith_channels decibelsToGain gainParam mix volume block
  have hsame : (processBlockWith decibelsToGain gainParam mix volume block).channels =
      block.channels := by
    rw [hch]
    rcases hempty with h0 | h0
    · have : block.channels = [] := List.length_eq_zero.mp h0
      rw [this]; rfl
    · have h0' : block.numSamples = 0 := h0
      rw [h0']
      have hid : sampleLoop decibelsToGain (gainParam * 60) mix volume 0 = id := by
        funext l
        unfold sampleLoop
        rw [List.range_zero]
        rfl
      rw [hid, List.map_id]
  obtain ⟨n, chs⟩ := block
  show AudioBlock.mk n _ = AudioBlock.mk n chs
  congr 1

/-- Instances of C6: a block without channels and a stereo block without samples. -/
theorem C6_empty_block_unchanged_witness :
    ((⟨512, []⟩ : AudioBlock ℚ).getNumChannels = 0 ∧
      processBlockWith (fun _ => (3 / 2 : ℚ)) 1 1 (1 / 10) ⟨512, []⟩ = ⟨512, []⟩) ∧
    ((⟨0, [[], []]⟩ : AudioBlock ℚ).getNumSamples = 0 ∧
      processBlockWith (fun _ => (3 / 2 : ℚ)) 1 1 (1 / 10) ⟨0, [[], []]⟩ = ⟨0, [[], []]⟩) :=
  ⟨⟨rfl, C6_empty_block_unchanged (fun _ => (3 / 2 : ℚ)) 1 1 (1 / 10) ⟨512, []⟩ (Or.inl rfl)⟩,
   ⟨rfl, C6_empty_block_unchanged (fun _ => (3 / 2 : ℚ)) 1 1 (1 / 10) ⟨0, [[], []]⟩ (Or.inr rfl)⟩⟩

/-- C7: the per-sample transform is total. With the division of line 183 checked
against a zero divisor, the loop body still returns a value, the one of the
unchecked body, for every sample and parameter triple; whenever the clip branch is
taken the divisor `|wet|` exceeds 0.99 and so is not zero. -/
theorem C7_transform_is_total {α : Type} [LinearOrderedField α]
    (decibelsToGain : α → α) (gain mix volume s : α) :
    processSampleChecked decibelsToGain gain mix volume s =
        some (processSample decibelsToGain gain mix volume s) ∧
    (s * decibelsToGain gain > 0.99 →
      |s * decibelsToGain gain| > 0.99 ∧ |s * decibelsToGain gain| ≠ 0 ∧
      checkedDiv 0.99 |s * decibelsToGain gain| = some (0.99 / |s * decibelsToGain gain|)) := by
  have hguard : s * decibelsToGain gain > 0.99 →
      |s * decibelsToGain gain| > 0.99 ∧ |s * decibelsToGain gain| ≠ 0 ∧
      checkedDiv 0.99 |s * decibelsToGain gain| = some (0.99 / |s * decibelsToGain gain|) := by
    intro h
    have habs : |s * decibelsToGain gain| > 0.99 := lt_of_lt_of_le h (le_abs_self _)
    have hne : |s * decibelsToGain gain| ≠ 0 := ne_of_gt (lt_trans (by norm_num) habs)
    exact ⟨habs, hne, by unfold checkedDiv; rw [if_neg hne]⟩
  refine ⟨?_, hguard⟩
  unfold processSampleChecked processSample
  by_cases h : s * decibelsToGain gain > 0.99
  · simp only [if_pos h, (hguard h).2.2, Option.map_some']
  · simp only [if_neg h, Option.map_some']

/-- Instance of C7: at `drySample = 1.0`, `driveLinear = 1.5` the branch is taken and
the divisor is not zero. -/
theorem C7_transform_is_total_witness :
    (1 : ℚ) * (fun _ => (1.5 : ℚ)) 0 > 0.99 ∧
      |(1 : ℚ) * (fun _ => (1.5 : ℚ)) 0| ≠ 0 :=
  ⟨by norm_num,
   ((C7_transform_is_total (fun _ => (1.5 : ℚ)) 0 1 1 1).2 (by norm_num)).2.1⟩

/-- C8: the gain parameter maps onto a 0-60 dB drive. For every gain in [0, 1],
`driveDb = gain * 60` lies in [0, 60] and `driveLinear = 10^(driveDb / 20)` lies in
[1, 1000], and this is the drive that `processBlock` applies: with `mix = 1` and a
volume of the declared range the sample -1.0, which the clip stage leaves alone,
becomes `-driveLinear * volume`. For `gain = 0.5`, `driveDb = 30` and
`driveLinear = 10^1.5`, within 0.01 of 31.62. -/
theorem C8_gain_maps_to_drive_range (gain volume : ℝ) (h0 : 0 ≤ gain) (h1 : gain ≤ 1)
    (_hv0 : 0 ≤ volume) (_hv1 : volume ≤ volumeMax) :
    (0 ≤ gain * 60 ∧ gain * 60 ≤ 60) ∧
    (1 ≤ (10 : ℝ) ^ ((gain * 60) / 20) ∧ (10 : ℝ) ^ ((gain * 60) / 20) ≤ 1000) ∧
    processBlock gain 1 volume ⟨1, [[-1]]⟩ =
      ⟨1, [[-((10 : ℝ) ^ ((gain * 60) / 20)) * volume]]⟩ ∧
    ((0.5 : ℝ) * 60 = 30 ∧
      processBlock 0.5 1 volume ⟨1, [[-1]]⟩ = ⟨1, [[-((10 : ℝ) ^ (1.5 : ℝ)) * volume]]⟩ ∧
      |(10 : ℝ) ^ (1.5 : ℝ) - 31.62| < 0.01) := by
  have hprobe : ∀ g : ℝ, 0 ≤ g → g ≤ 1 →
      processBlock g 1 volume ⟨1, [[-1]]⟩ =
        ⟨1, [[-((10 : ℝ) ^ ((g * 60) / 20)) * volume]]⟩ := by
    intro g hg0 hg1
    obtain ⟨hd1, _⟩ := decibelsToGain_range g hg0 hg1
    have hw : wetSignalOf Decibels.decibelsToGain (g * 60) (-1) =
        -1 * Decibels.decibelsToGain (g * 60) :=
      clipStage_of_le _ (by linarith)
    have hsample : processSample Decibels.decibelsToGain (g * 60) 1 volume (-1) =
        -((10 : ℝ) ^ ((g * 60) / 20)) * volume := by
      rw [processSample_eq_blend, hw, decibelsToGain_of_gt _ (by linarith)]
      ring
    unfold processBlock
    rw [processBlockWith_eq_mk _ _ _ _ _ (by simp [AudioBlock.WellFormed])]
    simp only [List.map_cons, List.map_nil, hsample]
  have hrange := decibelsToGain_range gain h0 h1
  rw [decibelsToGain_of_gt _ (by linarith)] at hrange
  refine ⟨⟨by linarith, by linarith⟩, hrange, hprobe gain h0 h1, by norm_num, ?_, ?_⟩
  · have h := hprobe 0.5 (by norm_num) (by norm_num)
    have he : ((0.5 : ℝ) * 60) / 20 = 1.5 := by norm_num
    rw [he] at h
    exact h
  · have hsq := ten_rpow_three_halves_sq
    have hpos : (0 : ℝ) < (10 : ℝ) ^ (1.5 : ℝ) := Real.rpow_pos_of_pos (by norm_num) _
    rw [abs_lt]
    constructor <;> nlinarith

/-- Instance of C8 at `gain = 0.5` and the default volume `0.1f`. -/
theorem C8_gain_maps_to_drive_range_witness :
    ((0 : ℝ) ≤ 0.5 ∧ (0.5 : ℝ) ≤ 1 ∧ (0 : ℝ) ≤ volumeMax) ∧
    processBlock 0.5 1 volumeMax ⟨1, [[-1]]⟩ =
      ⟨1, [[-((10 : ℝ) ^ (((0.5 : ℝ) * 60) / 20)) * volumeMax]]⟩ :=
  ⟨⟨by norm_num, by norm_num, by unfold volumeMax; norm_num⟩,
   (C8_gain_maps_to_drive_range 0.5 volumeMax (by norm_num) (by norm_num)
      (by unfold volumeMax; norm_num) (le_refl _)).2.2.1⟩

/-- C9: processing is not idempotent on its output. Some parameter triple inside the
declared ranges and some block `b` have `process (process b) ≠ process b`: with
`gain = 0`, `mix = 0`, `volume = 0.1` the sample 0.5 becomes 0.05 in the first pass
and 0.005 in the second. -/
theorem C9_processing_not_idempotent :
    (∃ (gain mix volume : ℝ) (block : AudioBlock ℝ),
      InDeclaredRanges gain mix volume ∧ block.WellFormed ∧
      processBlock gain mix volume (processBlock gain mix volume block) ≠
        processBlock gain mix volume block) ∧
    processBlock 0 0 0.1 ⟨1, [[0.5]]⟩ = ⟨1, [[0.05]]⟩ ∧
    processBlock 0 0 0.1 (processBlock 0 0 0.1 ⟨1, [[0.5]]⟩) = ⟨1, [[0.005]]⟩ := by
  have hs : ∀ x : ℝ, processSample Decibels.decibelsToGain (0 * 60) 0 0.1 x = x * 0.1 := by
    intro x
    rw [processSample_eq_blend]
    ring
  have hone : ∀ x : ℝ, processBlock 0 0 0.1 ⟨1, [[x]]⟩ = ⟨1, [[x * 0.1]]⟩ := by
    intro x
    unfold processBlock
    rw [processBlockWith_eq_mk _ _ _ _ _ (by simp [AudioBlock.WellFormed])]
    simp only [List.map_cons, List.map_nil, hs]
  have h1 : processBlock 0 0 0.1 ⟨1, [[0.5]]⟩ = ⟨1, [[0.05]]⟩ := by
    rw [hone]; norm_num
  have h2 : processBlock 0 0 0.1 (processBlock 0 0 0.1 ⟨1, [[0.5]]⟩) = ⟨1, [[0.005]]⟩ := by
    rw [h1, hone]; norm_num
  refine ⟨⟨0, 0, 0.1, ⟨1, [[0.5]]⟩, ?_, by simp [AudioBlock.WellFormed], ?_⟩, h1, h2⟩
  · unfold InDeclaredRanges volumeMax; norm_num
  · rw [h2, h1]
    intro heq
    injection heq with _ hch
    norm_num at hch

end SimpleFuzz
